import Mathlib

/-!
Verification development for a small Express + MongoDB product API
(src/server.js).  Each HTTP route handler is embedded as a pure Lean
function.  JSON values are modelled by `JVal`; a stored document is an
association list of field names to values.  Environment-supplied data
(the store-assigned identifier, the clock, and the JavaScript `Number`
conversion used on query strings) are passed as explicit parameters so
that every handler is a total, computable function.
-/

set_option autoImplicit false

/-- A JavaScript/BSON value as far as this service observes it.
`undefined` stands for JavaScript `undefined` (an absent field), `oid` for a
store object identifier (held as its canonical lowercase 24-digit hex
string), `date` for a BSON date (milliseconds). -/
inductive JVal where
  | undefined
  | jnull
  | bool (b : Bool)
  | num (n : Int)
  | str (s : String)
  | date (t : Int)
  | oid (hex : String)
  | arr (elems : List JVal)
  | obj (fields : List (String × JVal))

/-- A stored document: field names with values, first occurrence wins. -/
abbrev Doc := List (String × JVal)

/-- Field lookup in a document (`doc.field` / `doc[field]` on a present key). -/
def getField (d : Doc) (k : String) : Option JVal :=
  (d.find? (fun kv => kv.1 == k)).map (fun kv => kv.2)

/-- `doc[field]`, JavaScript style: an absent key reads as `undefined`. -/
def getV (d : Doc) (k : String) : JVal :=
  match getField d k with
  | some v => v
  | none => .undefined

/-- JavaScript truthiness of a value (`if (x)`); `undefined`, `null`,
`false`, `0`, and `""` are falsy, every object/array/date is truthy. -/
def truthy : JVal → Bool
  | .undefined => false
  | .jnull => false
  | .bool b => b
  | .num n => !(n == 0)
  | .str s => !(s == "")
  | .date _ => true
  | .oid _ => true
  | .arr _ => true
  | .obj _ => true

/-- `typeof x === "number"` on the model (the model has no NaN). -/
def isNumberV : JVal → Bool
  | .num _ => true
  | _ => false

/-- `x === undefined`. -/
def isUndefined : JVal → Bool
  | .undefined => true
  | _ => false

/-- An HTTP response: status code plus the JSON body passed to `res.json`. -/
structure Response where
  status : Nat
  body : JVal

/-- `res.json(\x7b error: e \x7d)`. -/
def errObj (e : String) : JVal :=
  .obj [("error", .str e)]

/-- Hex digit check for object-identifier strings. -/
def isHexDigit (c : Char) : Bool :=
  (('0' ≤ c) && (c ≤ '9')) || (('a' ≤ c) && (c ≤ 'f')) || (('A' ≤ c) && (c ≤ 'F'))

/-- `ObjectId.isValid` of the mongodb driver, for string input: a
24-character hexadecimal string (the representation the spec documents). -/
def isValidObjectId (s : String) : Bool :=
  (s.data.length == 24) && s.data.all isHexDigit

/-- Lowercase one hex character (identifier normalisation by `new ObjectId`). -/
def lowerHexChar (c : Char) : Char :=
  if ('A' ≤ c) && (c ≤ 'F') then Char.ofNat (c.toNat + 32) else c

/-- Canonical lowercase form of a hex identifier string. -/
def hexLower (s : String) : String :=
  String.mk (s.data.map lowerHexChar)

/-- Does a document match `\x7b _id: new ObjectId(id) \x7d`? -/
def matchesId (id : String) (d : Doc) : Bool :=
  match getField d "_id" with
  | some (.oid h) => h == hexLower id
  | _ => false

/-- The Mongo filter built by the list handler: optional `category`
equality and optional `price: \x7b $gte: min \x7d`.  Equality against a query
string matches string-valued fields; `$gte` against a number matches
numeric fields at least as large. -/
def matchesFilter (fcat : Option String) (fmin : Option Int) (d : Doc) : Bool :=
  (match fcat with
   | none => true
   | some c =>
     match getField d "category" with
     | some (.str s) => s == c
     | _ => false) &&
  (match fmin with
   | none => true
   | some m =>
     match getField d "price" with
     | some (.num p) => m ≤ p
     | _ => false)

/-- Split a string at commas (JavaScript `String.split(",")`),
written on the character list so it reduces structurally. -/
def splitCommaAux : List Char → List Char → List String
  | [], acc => [String.mk acc.reverse]
  | c :: cs, acc =>
    if c == ',' then String.mk acc.reverse :: splitCommaAux cs []
    else splitCommaAux cs (c :: acc)

/-- JavaScript `String.split(",")`. -/
def splitComma (s : String) : List String :=
  splitCommaAux s.data []

/-- Whitespace as removed by JavaScript `String.trim` (common cases). -/
def isWS (c : Char) : Bool :=
  (c == ' ') || (c == '\t') || (c == '\n') || (c == '\r')

/-- JavaScript `String.trim`. -/
def trimWS (s : String) : String :=
  String.mk (((s.data.dropWhile isWS).reverse.dropWhile isWS).reverse)

/-- `String(fields).split(",").map(f => f.trim()).filter(Boolean)`. -/
def selectedFields (fields : String) : List String :=
  ((splitComma fields).map trimWS).filter (fun s => !(s == ""))

/-- The projection the list handler sends to Mongo: each selected field
mapped to 1, plus `_id: 0` when `_id` is not selected.  Mongo semantics:
with at least one field included it is an inclusion projection (only the
listed fields are returned, `_id` only if listed); when `sel` is empty the
projection document is exactly `\x7b _id: 0 \x7d`, an exclusion projection that
returns every field except `_id`. -/
def applyProjection (sel : List String) (d : Doc) : Doc :=
  if sel.isEmpty then d.filter (fun kv => !(kv.1 == "_id"))
  else d.filter (fun kv => sel.contains kv.1)

/-- Query parameters of `GET /api/products`; each is absent or a string. -/
structure ListQuery where
  category : Option String
  minPrice : Option String
  sort : Option String
  fields : Option String

/-- `if (category) filter.category = category`: the equality filter is set
only when the parameter is truthy (a nonempty string). -/
def catFilter (q : ListQuery) : Option String :=
  match q.category with
  | some c => if c == "" then none else some c
  | none => none

/-- `if (fields) \x7b ... \x7d`: the projection is built only when the parameter
is truthy (a nonempty string). -/
def fieldsSel (q : ListQuery) : Option (List String) :=
  match q.fields with
  | some fs => if fs == "" then none else some (selectedFields fs)
  | none => none

/-- `sort === "price"` is the only sort the handler honours. -/
def sortPrice (q : ListQuery) : Bool :=
  q.sort == some "price"

/-- Sort key used for `\x7b price: 1 \x7d`; non-numeric prices are abstracted
(Mongo orders them by BSON type bracket, which no claim depends on). -/
def priceKey (d : Doc) : Int :=
  match getField d "price" with
  | some (.num p) => p
  | _ => 0

/-- Insert a document into a price-ascending list. -/
def insertByPrice (d : Doc) : List Doc → List Doc
  | [] => [d]
  | e :: es =>
    if priceKey d ≤ priceKey e then d :: e :: es
    else e :: insertByPrice d es

/-- Ascending sort by price (model of the Mongo `\x7b price: 1 \x7d` sort). -/
def sortByPrice (ds : List Doc) : List Doc :=
  ds.foldr insertByPrice []

/-- Projection step of the cursor: applied only when a projection was built. -/
def projectOut (q : ListQuery) (d : Doc) : Doc :=
  match fieldsSel q with
  | some sel => applyProjection sel d
  | none => d

/-- The documents the cursor yields (filter, then the optional sort). -/
def listDocs (q : ListQuery) (fmin : Option Int) (coll : List Doc) : List Doc :=
  let ds := coll.filter (matchesFilter (catFilter q) fmin)
  if sortPrice q then sortByPrice ds else ds

/-- Successful list response: the matching documents, projected. -/
def listOk (q : ListQuery) (fmin : Option Int) (coll : List Doc) : Response :=
  ⟨200, .arr ((listDocs q fmin coll).map (fun d => .obj (projectOut q d)))⟩

/-- `GET /api/products`.  `parse` is the JavaScript `Number` conversion on
query strings, with `none` standing for NaN; `minPrice` present but not
numeric is rejected before any store access. -/
def listProducts (parse : String → Option Int) (q : ListQuery) (coll : List Doc) :
    Response :=
  match q.minPrice with
  | none => listOk q none coll
  | some mp =>
    match parse mp with
    | none => ⟨400, errObj "minPrice must be a number"⟩
    | some m => listOk q (some m) coll

/-- `GET /api/products/:id`: invalid identifier is rejected before the
`findOne`; a missing document is 404; otherwise the document is returned. -/
def getProduct (id : String) (coll : List Doc) : Response :=
  if isValidObjectId id then
    match coll.find? (matchesId id) with
    | none => ⟨404, errObj "Not found"⟩
    | some d => ⟨200, .obj d⟩
  else ⟨400, errObj "Invalid id"⟩

/-- The body of `POST /api/products` after destructuring
`const \x7b name, category, price, stock \x7d = req.body` (absent keys are
`undefined`). -/
structure CreateBody where
  name : JVal
  category : JVal
  price : JVal
  stock : JVal

/-- The `doc` the create handler builds: the four attributes with `stock`
coerced to 0 unless numeric, plus the creation timestamp. -/
def createdDoc (now : Int) (b : CreateBody) : Doc :=
  [("name", b.name),
   ("category", b.category),
   ("price", b.price),
   ("stock", if isNumberV b.stock then b.stock else .num 0),
   ("createdAt", .date now)]

/-- The 400 body of the create handler. -/
def createValidationErr : JVal :=
  .obj [("error", .str "Validation error"),
        ("details", .str "name and category required; price must be a number")]

/-- `POST /api/products`.  `newId` is the identifier `insertOne` assigns
(canonical lowercase hex), `now` the clock reading for `new Date()`.
Returns the response and the collection after the call. -/
def createProduct (newId : String) (now : Int) (b : CreateBody) (coll : List Doc) :
    Response × List Doc :=
  if !truthy b.name || !truthy b.category || !isNumberV b.price then
    (⟨400, createValidationErr⟩, coll)
  else
    let stored : Doc := ("_id", .oid newId) :: createdDoc now b
    (⟨201, .obj stored⟩, coll ++ [stored])

/-- The update allow-list, in the order the handler iterates it. -/
def allowedKeys : List String := ["name", "category", "price", "stock"]

/-- The `updates` object: each allow-listed key whose body value is not
`undefined`, with that value; keys outside the allow-list are dropped. -/
def buildUpdates (body : Doc) : List (String × JVal) :=
  allowedKeys.filterMap (fun k =>
    if isUndefined (getV body k) then none else some (k, getV body k))

/-- `updates.k !== undefined && typeof updates.k !== "number"` (the key is
present in `updates` but its value is not a number). -/
def badNum : Option JVal → Bool
  | some v => !isNumberV v
  | none => false

/-- `$set` of one field: replace the value in place when the key exists,
append the field otherwise. -/
def setField (d : Doc) (k : String) (v : JVal) : Doc :=
  if (d.find? (fun kv => kv.1 == k)).isSome then
    d.map (fun kv => if kv.1 == k then (k, v) else kv)
  else d ++ [(k, v)]

/-- Effect of `\x7b $set: updates, $currentDate: \x7b updatedAt: true \x7d \x7d` on one
document. -/
def applyUpdate (u : List (String × JVal)) (now : Int) (d : Doc) : Doc :=
  setField (u.foldl (fun a kv => setField a kv.1 kv.2) d) "updatedAt" (.date now)

/-- `findOneAndUpdate` with `returnDocument: "after"`: rewrite the first
document matching `p` with `f`, returning the post-update document. -/
def findOneAndUpdate (p : Doc → Bool) (f : Doc → Doc) :
    List Doc → Option Doc × List Doc
  | [] => (none, [])
  | d :: ds =>
    if p d then (some (f d), f d :: ds)
    else
      let r := findOneAndUpdate p f ds
      (r.1, d :: r.2)

/-- `PUT /api/products/:id`. -/
def updateProduct (now : Int) (id : String) (body : Doc) (coll : List Doc) :
    Response × List Doc :=
  if isValidObjectId id then
    let updates := buildUpdates body
    if updates.isEmpty then (⟨400, errObj "No valid fields to update"⟩, coll)
    else if badNum (getField updates "price") then
      (⟨400, errObj "price must be a number"⟩, coll)
    else if badNum (getField updates "stock") then
      (⟨400, errObj "stock must be a number"⟩, coll)
    else
      match findOneAndUpdate (matchesId id) (applyUpdate updates now) coll with
      | (none, coll2) => (⟨404, errObj "Not found"⟩, coll2)
      | (some d, coll2) => (⟨200, .obj d⟩, coll2)
  else (⟨400, errObj "Invalid id"⟩, coll)

/-- `deleteOne`: remove the first document matching `p`; the first
component is `deletedCount`. -/
def deleteOne (p : Doc → Bool) : List Doc → Nat × List Doc
  | [] => (0, [])
  | d :: ds =>
    if p d then (1, ds)
    else
      let r := deleteOne p ds
      (r.1, d :: r.2)

/-- `DELETE /api/products/:id`. -/
def deleteProduct (id : String) (coll : List Doc) : Response × List Doc :=
  if isValidObjectId id then
    let r := deleteOne (matchesId id) coll
    if r.1 == 0 then (⟨404, errObj "Not found"⟩, coll)
    else (⟨200, .obj [("deleted", .bool true), ("id", .str id)]⟩, r.2)
  else (⟨400, errObj "Invalid id"⟩, coll)

/-- Body of the health check `GET /`. -/
def healthBody (nowIso : String) : JVal :=
  .obj [("status", .str "ok"), ("service", .str "practice11"), ("time", .str nowIso)]

/-- Environment data a request consumes: the JavaScript `Number`
conversion on query strings (`none` = NaN), the clock (as milliseconds
and as ISO string), and the identifier `insertOne` will assign. -/
structure Env where
  parse : String → Option Int
  now : Int
  nowIso : String
  newId : String

/-- One incoming HTTP request, by route. -/
inductive Request where
  | health
  | list (q : ListQuery)
  | getById (id : String)
  | create (b : CreateBody)
  | update (id : String) (body : Doc)
  | deleteById (id : String)

/-- The server: the health route answers unconditionally; every product
route first passes the `ensureDB` middleware, which answers 503 while
`productsCollection` is unset (`none`).  The state is the collection
handle together with the stored documents. -/
def handle (env : Env) (req : Request) (st : Option (List Doc)) :
    Response × Option (List Doc) :=
  match req with
  | .health => (⟨200, healthBody env.nowIso⟩, st)
  | .list q =>
    match st with
    | none => (⟨503, errObj "Database not ready yet"⟩, none)
    | some coll => (listProducts env.parse q coll, some coll)
  | .getById id =>
    match st with
    | none => (⟨503, errObj "Database not ready yet"⟩, none)
    | some coll => (getProduct id coll, some coll)
  | .create b =>
    match st with
    | none => (⟨503, errObj "Database not ready yet"⟩, none)
    | some coll =>
      let r := createProduct env.newId env.now b coll
      (r.1, some r.2)
  | .update id body =>
    match st with
    | none => (⟨503, errObj "Database not ready yet"⟩, none)
    | some coll =>
      let r := updateProduct env.now id body coll
      (r.1, some r.2)
  | .deleteById id =>
    match st with
    | none => (⟨503, errObj "Database not ready yet"⟩, none)
    | some coll =>
      let r := deleteProduct id coll
      (r.1, some r.2)

/-- A well-formed store identifier used as concrete test data. -/
def sampleId : String := "aaaaaaaaaaaaaaaaaaaaaaaa"

/-- A second store identifier, for freshly created documents. -/
def sampleId2 : String := "bbbbbbbbbbbbbbbbbbbbbbbb"

/-- A document of the shape the create handler persists. -/
def sampleDoc : Doc :=
  [("_id", JVal.oid sampleId), ("name", JVal.str "Pen"),
   ("category", JVal.str "Stationery"), ("price", JVal.num 2),
   ("stock", JVal.num 0), ("createdAt", JVal.date 0)]

/-- A concrete environment for instantiating the theorems. -/
def sampleEnv : Env := ⟨fun _ => none, 0, "2026-01-01T00:00:00.000Z", sampleId2⟩

/-! Association-list lemmas about `getField`, `setField`, and the update
construction. -/

theorem getField_nil (k : String) : getField ([] : Doc) k = none := rfl

theorem getField_cons (kv : String × JVal) (tl : Doc) (k : String) :
    getField (kv :: tl) k = if kv.1 = k then some kv.2 else getField tl k := by
  by_cases h : kv.1 = k
  · simp [getField, List.find?_cons, h]
  · have hb : (kv.1 == k) = false := beq_eq_false_iff_ne.mpr h
    simp [getField, List.find?_cons, hb, h]

theorem getField_eq_none (d : Doc) (k : String) :
    getField d k = none ↔ k ∉ d.map Prod.fst := by
  induction d with
  | nil => simp [getField_nil]
  | cons kv tl ih =>
    rw [getField_cons]
    by_cases h : kv.1 = k
    · simp [h]
    · have h2 : ¬ k = kv.1 := fun e => h e.symm
      rw [if_neg h, ih]
      simp [List.mem_cons, h2]

theorem getField_eq_some_of_mem (d : Doc) (k : String) (v : JVal)
    (hnd : (d.map Prod.fst).Nodup) (h : (k, v) ∈ d) : getField d k = some v := by
  induction d with
  | nil => cases h
  | cons kv tl ih =>
    rw [getField_cons]
    rcases List.mem_cons.mp h with h | h
    · simp [← h]
    · have hk : k ∈ tl.map Prod.fst := List.mem_map.mpr ⟨(k, v), h, rfl⟩
      simp only [List.map_cons, List.nodup_cons] at hnd
      have hne : ¬ kv.1 = k := fun e => hnd.1 (e ▸ hk)
      rw [if_neg hne]
      exact ih hnd.2 h

theorem getField_append_absent (d : Doc) (k k2 : String) (v : JVal)
    (h : getField d k = none) :
    getField (d ++ [(k, v)]) k2 = if k = k2 then some v else getField d k2 := by
  induction d with
  | nil =>
    simp only [List.nil_append, getField_cons, getField_nil]
  | cons kv tl ih =>
    rw [getField_cons] at h
    by_cases hc : kv.1 = k
    · simp [hc] at h
    · rw [if_neg hc] at h
      simp only [List.cons_append, getField_cons, ih h]
      by_cases h2 : k = k2
      · have hc2 : ¬ kv.1 = k2 := fun e => hc (e.trans h2.symm)
        simp [h2, hc2]
      · simp [h2]

theorem getField_map_set_ne (d : Doc) (k k2 : String) (v : JVal) (h : ¬ k = k2) :
    getField (d.map (fun kv => if kv.1 == k then (k, v) else kv)) k2 =
      getField d k2 := by
  induction d with
  | nil => rfl
  | cons kv tl ih =>
    simp only [List.map_cons]
    by_cases hc : kv.1 = k
    · have e1 : (if kv.1 == k then (k, v) else kv) = (k, v) := by simp [hc]
      rw [e1, getField_cons, getField_cons, ih]
      have hc2 : ¬ kv.1 = k2 := fun e => h (hc ▸ e)
      rw [if_neg h, if_neg hc2]
    · have e1 : (if kv.1 == k then (k, v) else kv) = kv := by
        have hb : (kv.1 == k) = false := beq_eq_false_iff_ne.mpr hc
        simp [hb]
      rw [e1, getField_cons, getField_cons, ih]

theorem getField_map_set_present (d : Doc) (k : String) (v : JVal)
    (h : (getField d k).isSome = true) :
    getField (d.map (fun kv => if kv.1 == k then (k, v) else kv)) k = some v := by
  induction d with
  | nil => simp [getField_nil] at h
  | cons kv tl ih =>
    simp only [List.map_cons]
    by_cases hc : kv.1 = k
    · have e1 : (if kv.1 == k then (k, v) else kv) = (k, v) := by simp [hc]
      rw [e1, getField_cons, if_pos rfl]
    · have e1 : (if kv.1 == k then (k, v) else kv) = kv := by
        have hb : (kv.1 == k) = false := beq_eq_false_iff_ne.mpr hc
        simp [hb]
      rw [getField_cons, if_neg hc] at h
      rw [e1, getField_cons, if_neg hc]
      exact ih h

theorem getField_setField (d : Doc) (k k2 : String) (v : JVal) :
    getField (setField d k v) k2 = if k = k2 then some v else getField d k2 := by
  unfold setField
  by_cases hp : (d.find? (fun kv => kv.1 == k)).isSome = true
  · rw [if_pos hp]
    by_cases h2 : k = k2
    · subst h2
      rw [if_pos rfl]
      exact getField_map_set_present d k v (by simpa [getField, Option.isSome_map] using hp)
    · rw [if_neg h2]
      exact getField_map_set_ne d k k2 v h2
  · rw [if_neg hp]
    have hnone : getField d k = none := by
      cases hfind : d.find? (fun kv => kv.1 == k) with
      | none => simp [getField, hfind]
      | some kv => exact absurd (by simp [hfind]) hp
    exact getField_append_absent d k k2 v hnone

theorem getField_foldl_setField_none (u : List (String × JVal)) (d : Doc) (k : String)
    (h : getField u k = none) :
    getField (u.foldl (fun a kv => setField a kv.1 kv.2) d) k = getField d k := by
  induction u generalizing d with
  | nil => rfl
  | cons kv tl ih =>
    rw [getField_cons] at h
    by_cases hc : kv.1 = k
    · simp [hc] at h
    · rw [if_neg hc] at h
      simp only [List.foldl_cons]
      rw [ih _ h, getField_setField, if_neg hc]

theorem getField_foldl_setField_some (u : List (String × JVal)) (d : Doc)
    (k : String) (v : JVal) (hnd : (u.map Prod.fst).Nodup)
    (h : getField u k = some v) :
    getField (u.foldl (fun a kv => setField a kv.1 kv.2) d) k = some v := by
  induction u generalizing d with
  | nil => simp [getField_nil] at h
  | cons kv tl ih =>
    rw [getField_cons] at h
    simp only [List.map_cons, List.nodup_cons] at hnd
    simp only [List.foldl_cons]
    by_cases hc : kv.1 = k
    · rw [if_pos hc] at h
      have htl : getField tl k = none := (getField_eq_none tl k).mpr (hc ▸ hnd.1)
      rw [getField_foldl_setField_none tl _ k htl, getField_setField, if_pos hc]
      exact congrArg some (Option.some.inj h)
    · rw [if_neg hc] at h
      exact ih (setField d kv.1 kv.2) hnd.2 h

theorem getField_filterMap_updates_not_mem (body : Doc) (ks : List String)
    (k : String) (hk : k ∉ ks) :
    getField (ks.filterMap (fun k2 =>
      if isUndefined (getV body k2) then none else some (k2, getV body k2))) k = none := by
  induction ks with
  | nil => rfl
  | cons a tl ih =>
    have hka : ¬ a = k := fun e => hk (e ▸ List.mem_cons_self a tl)
    have htl : k ∉ tl := fun m => hk (List.mem_cons_of_mem a m)
    rw [List.filterMap_cons]
    by_cases hu : isUndefined (getV body a) = true
    · rw [if_pos hu]
      exact ih htl
    · rw [if_neg hu, getField_cons, if_neg hka]
      exact ih htl

theorem getField_filterMap_updates (body : Doc) (ks : List String)
    (hnd : ks.Nodup) (k : String) (hk : k ∈ ks) :
    getField (ks.filterMap (fun k2 =>
      if isUndefined (getV body k2) then none else some (k2, getV body k2))) k =
      if isUndefined (getV body k) then none else some (getV body k) := by
  induction ks with
  | nil => cases hk
  | cons a tl ih =>
    rw [List.filterMap_cons]
    rcases List.nodup_cons.mp hnd with ⟨hna, hntl⟩
    rcases List.mem_cons.mp hk with he | htl
    · subst he
      by_cases hu : isUndefined (getV body k) = true
      · rw [if_pos hu, if_pos hu]
        exact getField_filterMap_updates_not_mem body tl k hna
      · rw [if_neg hu, if_neg hu, getField_cons, if_pos rfl]
    · have hka : ¬ a = k := fun e => hna (e ▸ htl)
      by_cases hu : isUndefined (getV body a) = true
      · rw [if_pos hu]
        exact ih hntl htl
      · rw [if_neg hu, getField_cons, if_neg hka]
        exact ih hntl htl

theorem keys_filterMap_updates_sublist (body : Doc) (ks : List String) :
    ((ks.filterMap (fun k2 =>
      if isUndefined (getV body k2) then none else some (k2, getV body k2))).map
        Prod.fst).Sublist ks := by
  induction ks with
  | nil => exact List.Sublist.refl []
  | cons a tl ih =>
    rw [List.filterMap_cons]
    by_cases hu : isUndefined (getV body a) = true
    · rw [if_pos hu]
      exact ih.cons a
    · rw [if_neg hu, List.map_cons]
      exact ih.cons₂ a

theorem keys_buildUpdates_sublist (body : Doc) :
    ((buildUpdates body).map Prod.fst).Sublist allowedKeys :=
  keys_filterMap_updates_sublist body allowedKeys

theorem keys_buildUpdates_nodup (body : Doc) :
    ((buildUpdates body).map Prod.fst).Nodup :=
  (by decide : allowedKeys.Nodup).sublist (keys_buildUpdates_sublist body)

theorem getField_buildUpdates (body : Doc) (k : String) (hk : k ∈ allowedKeys) :
    getField (buildUpdates body) k =
      if isUndefined (getV body k) then none else some (getV body k) :=
  getField_filterMap_updates body allowedKeys (by decide) k hk

theorem getField_buildUpdates_not_allowed (body : Doc) (k : String)
    (hk : k ∉ allowedKeys) : getField (buildUpdates body) k = none :=
  (getField_eq_none _ k).mpr
    (fun m => hk ((keys_buildUpdates_sublist body).subset m))

theorem updatedAt_not_key_buildUpdates (body : Doc) :
    "updatedAt" ∉ (buildUpdates body).map Prod.fst :=
  fun m => absurd ((keys_buildUpdates_sublist body).subset m) (by decide)

theorem getField_applyUpdate_updatedAt (u : List (String × JVal)) (now : Int)
    (d : Doc) : getField (applyUpdate u now d) "updatedAt" = some (.date now) := by
  unfold applyUpdate
  rw [getField_setField, if_pos rfl]

theorem getField_applyUpdate_of_none (u : List (String × JVal)) (now : Int)
    (d : Doc) (k : String) (hk : ¬ k = "updatedAt") (h : getField u k = none) :
    getField (applyUpdate u now d) k = getField d k := by
  unfold applyUpdate
  rw [getField_setField, if_neg (fun e => hk e.symm)]
  exact getField_foldl_setField_none u d k h

theorem getField_applyUpdate_of_some (u : List (String × JVal)) (now : Int)
    (d : Doc) (k : String) (v : JVal) (hnd : (u.map Prod.fst).Nodup)
    (hk : ¬ k = "updatedAt") (h : getField u k = some v) :
    getField (applyUpdate u now d) k = some v := by
  unfold applyUpdate
  rw [getField_setField, if_neg (fun e => hk e.symm)]
  exact getField_foldl_setField_some u d k v hnd h

theorem findOneAndUpdate_split (p : Doc → Bool) (f : Doc → Doc)
    (pre post : List Doc) (d : Doc) (hpre : ∀ e ∈ pre, p e = false)
    (hd : p d = true) :
    findOneAndUpdate p f (pre ++ d :: post) = (some (f d), pre ++ f d :: post) := by
  induction pre with
  | nil =>
    simp only [List.nil_append, findOneAndUpdate, hd, if_pos]
  | cons e tl ih =>
    have he : p e = false := hpre e (List.mem_cons_self e tl)
    have htl : ∀ x ∈ tl, p x = false := fun x m => hpre x (List.mem_cons_of_mem e m)
    simp [List.cons_append, findOneAndUpdate, he, ih htl]

/-! Lemmas about the list pipeline: filter, sort, projection. -/

theorem mem_insertByPrice (d x : Doc) (l : List Doc) :
    x ∈ insertByPrice d l ↔ x = d ∨ x ∈ l := by
  induction l with
  | nil => simp [insertByPrice]
  | cons e es ih =>
    unfold insertByPrice
    by_cases hc : priceKey d ≤ priceKey e
    · simp [hc]
    · rw [if_neg hc]
      simp only [List.mem_cons, ih]
      tauto

theorem mem_sortByPrice (ds : List Doc) (x : Doc) :
    x ∈ sortByPrice ds ↔ x ∈ ds := by
  induction ds with
  | nil => simp [sortByPrice]
  | cons d tl ih =>
    show x ∈ insertByPrice d (sortByPrice tl) ↔ _
    rw [mem_insertByPrice]
    simp [ih]

theorem mem_listDocs (q : ListQuery) (fmin : Option Int) (coll : List Doc)
    (d : Doc) :
    d ∈ listDocs q fmin coll ↔
      d ∈ coll ∧ matchesFilter (catFilter q) fmin d = true := by
  unfold listDocs
  by_cases hs : sortPrice q = true
  · rw [if_pos hs, mem_sortByPrice, List.mem_filter]
  · rw [if_neg hs, List.mem_filter]

theorem price_ge_of_matches (fcat : Option String) (m : Int) (d : Doc)
    (h : matchesFilter fcat (some m) d = true) :
    ∃ p : Int, getField d "price" = some (.num p) ∧ m ≤ p := by
  unfold matchesFilter at h
  rcases Bool.and_eq_true_iff.mp h with ⟨_, h2⟩
  cases hp : getField d "price" with
  | none => rw [hp] at h2; cases h2
  | some v =>
    rw [hp] at h2
    cases v with
    | num p => exact ⟨p, rfl, by simpa using h2⟩
    | undefined => cases h2
    | jnull => cases h2
    | bool b => cases h2
    | str s => cases h2
    | date t => cases h2
    | oid s => cases h2
    | arr xs => cases h2
    | obj fs => cases h2

theorem keys_filter_mem (d : Doc) (f : String × JVal → Bool) (k : String) :
    k ∈ (d.filter f).map Prod.fst ↔ ∃ v, (k, v) ∈ d ∧ f (k, v) = true := by
  constructor
  · intro h
    rcases List.mem_map.mp h with ⟨⟨k1, v⟩, hm, hk⟩
    subst hk
    rcases List.mem_filter.mp hm with ⟨hd, hf⟩
    exact ⟨v, hd, hf⟩
  · rintro ⟨v, hd, hf⟩
    exact List.mem_map.mpr ⟨(k, v), List.mem_filter.mpr ⟨hd, hf⟩, rfl⟩

theorem mem_keys_iff (d : Doc) (k : String) :
    k ∈ d.map Prod.fst ↔ ∃ v, (k, v) ∈ d := by
  constructor
  · intro h
    rcases List.mem_map.mp h with ⟨⟨k1, v⟩, hm, hk⟩
    subst hk
    exact ⟨v, hm⟩
  · rintro ⟨v, hv⟩
    exact List.mem_map.mpr ⟨(k, v), hv, rfl⟩

theorem keys_applyProjection_incl (sel : List String) (d : Doc) (k : String)
    (hsel : ¬ sel = []) :
    k ∈ (applyProjection sel d).map Prod.fst ↔
      k ∈ d.map Prod.fst ∧ k ∈ sel := by
  unfold applyProjection
  rw [if_neg (fun h => hsel (List.isEmpty_iff.mp h)), keys_filter_mem]
  constructor
  · rintro ⟨v, hd, hf⟩
    exact ⟨(mem_keys_iff d k).mpr ⟨v, hd⟩, by simpa using hf⟩
  · rintro ⟨hk, hs⟩
    rcases (mem_keys_iff d k).mp hk with ⟨v, hv⟩
    exact ⟨v, hv, by simpa using hs⟩

theorem keys_applyProjection_excl (d : Doc) (k : String) :
    k ∈ (applyProjection [] d).map Prod.fst ↔
      k ∈ d.map Prod.fst ∧ ¬ k = "_id" := by
  have e : applyProjection [] d = d.filter (fun kv => !(kv.1 == "_id")) := rfl
  rw [e, keys_filter_mem]
  constructor
  · rintro ⟨v, hd, hf⟩
    refine ⟨(mem_keys_iff d k).mpr ⟨v, hd⟩, ?_⟩
    simpa using hf
  · rintro ⟨hk, hs⟩
    rcases (mem_keys_iff d k).mp hk with ⟨v, hv⟩
    exact ⟨v, hv, by simpa using hs⟩

theorem getField_filter_contains (body : Doc) (ks : List String) (k : String)
    (hk : k ∈ ks) :
    getField (body.filter (fun kv => ks.contains kv.1)) k = getField body k := by
  induction body with
  | nil => rfl
  | cons kv tl ih =>
    rw [List.filter_cons]
    by_cases hc : kv.1 = k
    · have hcont : ks.contains kv.1 = true := by
        rw [hc]
        exact List.elem_eq_true_of_mem hk
      rw [if_pos hcont, getField_cons, getField_cons, if_pos hc, if_pos hc]
    · by_cases hcont : ks.contains kv.1 = true
      · rw [if_pos hcont, getField_cons, getField_cons, if_neg hc, if_neg hc, ih]
      · rw [if_neg hcont, getField_cons, if_neg hc, ih]

theorem buildUpdates_filter_allowed (body : Doc) :
    buildUpdates body = buildUpdates (body.filter (fun kv => allowedKeys.contains kv.1)) := by
  unfold buildUpdates
  apply List.filterMap_congr
  intro k hk
  have hg : getV (body.filter (fun kv => allowedKeys.contains kv.1)) k = getV body k := by
    unfold getV
    rw [getField_filter_contains body allowedKeys k hk]
  rw [hg]

theorem listProducts_eq_200 (parse : String → Option Int) (q : ListQuery)
    (coll : List Doc) (out : List JVal)
    (h : listProducts parse q coll = ⟨200, JVal.arr out⟩) :
    ∃ fmin : Option Int,
      out = (listDocs q fmin coll).map (fun d => JVal.obj (projectOut q d)) := by
  cases hq : q.minPrice with
  | none =>
    simp only [listProducts, hq, listOk] at h
    exact ⟨none, (JVal.arr.inj (congrArg Response.body h)).symm⟩
  | some mp =>
    cases hp : parse mp with
    | none =>
      simp only [listProducts, hq, hp] at h
      exact absurd (show (400 : Nat) = 200 from congrArg Response.status h) (by decide)
    | some m =>
      simp only [listProducts, hq, hp, listOk] at h
      exact ⟨some m, (JVal.arr.inj (congrArg Response.body h)).symm⟩

/-! The claims. -/

/-- C7: for get-by-id, update, and delete, a path identifier that is not a
structurally valid store identifier yields status 400 with no store access:
the stored collection is unchanged and the response does not depend on it. -/
theorem invalid_id_rejected (now : Int) (id : String) (body : Doc)
    (coll : List Doc) (hbad : isValidObjectId id = false) :
    getProduct id coll = ⟨400, errObj "Invalid id"⟩ ∧
    updateProduct now id body coll = (⟨400, errObj "Invalid id"⟩, coll) ∧
    deleteProduct id coll = (⟨400, errObj "Invalid id"⟩, coll) := by
  refine ⟨?_, ?_, ?_⟩ <;> simp [getProduct, updateProduct, deleteProduct, hbad]

/-- Witness for C7 at the malformed identifier "not-an-id". -/
theorem invalid_id_rejected_witness :
    isValidObjectId "not-an-id" = false ∧
    getProduct "not-an-id" [sampleDoc] = ⟨400, errObj "Invalid id"⟩ ∧
    updateProduct 0 "not-an-id" [] [sampleDoc] =
      (⟨400, errObj "Invalid id"⟩, [sampleDoc]) ∧
    deleteProduct "not-an-id" [sampleDoc] = (⟨400, errObj "Invalid id"⟩, [sampleDoc]) := by
  have h := invalid_id_rejected 0 "not-an-id" [] [sampleDoc] (by decide)
  exact ⟨by decide, h.1, h.2.1, h.2.2⟩

/-- C8: with the collection handle not yet established, every product
operation answers 503 with the not-ready error and touches nothing, while
the health check answers 200 with the status payload in every state. -/
theorem readiness_gate (env : Env) :
    (∀ req, ¬ req = Request.health →
      handle env req none = (⟨503, errObj "Database not ready yet"⟩, none)) ∧
    (∀ st, handle env Request.health st = (⟨200, healthBody env.nowIso⟩, st)) := by
  constructor
  · intro req hreq
    cases req with
    | health => exact absurd rfl hreq
    | list q => rfl
    | getById id => rfl
    | create b => rfl
    | update id body => rfl
    | deleteById id => rfl
  · intro st
    rfl

/-- Witness for C8: a get request before readiness, and the health check
both before and after readiness. -/
theorem readiness_gate_witness :
    handle sampleEnv (Request.getById sampleId) none =
      (⟨503, errObj "Database not ready yet"⟩, none) ∧
    handle sampleEnv Request.health none =
      (⟨200, healthBody sampleEnv.nowIso⟩, none) ∧
    handle sampleEnv Request.health (some [sampleDoc]) =
      (⟨200, healthBody sampleEnv.nowIso⟩, some [sampleDoc]) :=
  ⟨(readiness_gate sampleEnv).1 (Request.getById sampleId) (fun h => nomatch h),
   (readiness_gate sampleEnv).2 none,
   (readiness_gate sampleEnv).2 (some [sampleDoc])⟩

/-- C9: the create handler does not check that name or category are
strings: a request with the number 5 as name, a string category and a
numeric price succeeds with status 201 and persists the numeric name
unchanged. -/
theorem create_accepts_nonstring_name :
    (createProduct sampleId2 7
      ⟨JVal.num 5, JVal.str "Stationery", JVal.num 3, JVal.undefined⟩ []).1.status = 201 ∧
    (createProduct sampleId2 7
      ⟨JVal.num 5, JVal.str "Stationery", JVal.num 3, JVal.undefined⟩ []).2 =
      [[("_id", JVal.oid sampleId2), ("name", JVal.num 5),
        ("category", JVal.str "Stationery"), ("price", JVal.num 3),
        ("stock", JVal.num 0), ("createdAt", JVal.date 7)]] ∧
    getField ((createProduct sampleId2 7
      ⟨JVal.num 5, JVal.str "Stationery", JVal.num 3, JVal.undefined⟩ []).2.headD [])
      "name" = some (JVal.num 5) :=
  ⟨rfl, rfl, rfl⟩

/-- Counterexample to C1 as stated: updating an existing record with
body `{"name": ""}` succeeds with status 200 and stores the empty name;
the update handler never checks emptiness. -/
theorem update_sets_name_empty :
    getField sampleDoc "name" = some (JVal.str "Pen") ∧
    (updateProduct 5 sampleId [("name", JVal.str "")] [sampleDoc]).1.status = 200 ∧
    getField ((updateProduct 5 sampleId [("name", JVal.str "")] [sampleDoc]).2.headD [])
      "name" = some (JVal.str "") :=
  ⟨rfl, rfl, rfl⟩

/-- C1 (amended): the create operation rejects an empty name or category
with a validation error and persists nothing; the update operation does
not enforce non-emptiness (it can store an empty name or category, as the
counterexample shows), so the invariant is only enforced at creation. -/
theorem create_rejects_empty (newId : String) (now : Int) (b : CreateBody)
    (coll : List Doc) (h : b.name = JVal.str "" ∨ b.category = JVal.str "") :
    createProduct newId now b coll = (⟨400, createValidationErr⟩, coll) := by
  unfold createProduct
  rcases h with h | h <;> rw [h] <;> simp [truthy]

/-- Witness for C1 (amended) at a concrete empty-name body. -/
theorem create_rejects_empty_witness :
    ((JVal.str "" : JVal) = JVal.str "" ∨ (JVal.str "Stationery" : JVal) = JVal.str "") ∧
    createProduct sampleId2 0
      ⟨JVal.str "", JVal.str "Stationery", JVal.num 3, JVal.undefined⟩ [] =
      (⟨400, createValidationErr⟩, []) :=
  ⟨Or.inl rfl,
   create_rejects_empty sampleId2 0
     ⟨JVal.str "", JVal.str "Stationery", JVal.num 3, JVal.undefined⟩ [] (Or.inl rfl)⟩

/-- Counterexample to C2 as stated: a create request whose stock is the
non-numeric string "lots" does not fail; it succeeds with status 201 and
stores stock 0. -/
theorem create_nonnumeric_stock_succeeds :
    (createProduct sampleId2 7
      ⟨JVal.str "Pen", JVal.str "Stationery", JVal.num 3, JVal.str "lots"⟩ []).1.status = 201 ∧
    getField ((createProduct sampleId2 7
      ⟨JVal.str "Pen", JVal.str "Stationery", JVal.num 3, JVal.str "lots"⟩ []).2.headD [])
      "stock" = some (JVal.num 0) :=
  ⟨rfl, rfl⟩

/-- C2 (amended): an update request whose stock is supplied and not
numeric fails with status 400 and modifies nothing; a create request with
a non-numeric stock is not rejected for it — when the other validations
pass, the record is created with stock 0. -/
theorem stock_nonnumeric_spec (now : Int) (id : String) (body : Doc)
    (coll : List Doc) (newId : String) (b : CreateBody)
    (hsup : isUndefined (getV body "stock") = false)
    (hnum : isNumberV (getV body "stock") = false)
    (hbn : isNumberV b.stock = false) :
    ((updateProduct now id body coll).1.status = 400 ∧
     (updateProduct now id body coll).2 = coll) ∧
    ((truthy b.name && truthy b.category && isNumberV b.price) = true →
      ∃ d, createProduct newId now b coll = (⟨201, JVal.obj d⟩, coll ++ [d]) ∧
        getField d "stock" = some (JVal.num 0)) := by
  constructor
  · unfold updateProduct
    by_cases hid : isValidObjectId id = true
    · rw [if_pos hid]
      have hst : getField (buildUpdates body) "stock" = some (getV body "stock") := by
        rw [getField_buildUpdates body "stock" (by decide), if_neg (by simp [hsup])]
      have hnil : ¬ (buildUpdates body).isEmpty = true := by
        intro he
        rw [List.isEmpty_iff.mp he] at hst
        exact nomatch hst
      rw [if_neg hnil]
      by_cases hp : badNum (getField (buildUpdates body) "price") = true
      · rw [if_pos hp]
        exact ⟨rfl, rfl⟩
      · rw [if_neg hp]
        have hbs : badNum (getField (buildUpdates body) "stock") = true := by
          rw [hst]
          simp [badNum, hnum]
        rw [if_pos hbs]
        exact ⟨rfl, rfl⟩
    · rw [if_neg hid]
      exact ⟨rfl, rfl⟩
  · intro habc
    rcases Bool.and_eq_true_iff.mp habc with ⟨hab, hc⟩
    rcases Bool.and_eq_true_iff.mp hab with ⟨ha, hb⟩
    refine ⟨("_id", JVal.oid newId) :: createdDoc now b, ?_, ?_⟩
    · simp [createProduct, ha, hb, hc]
    · simp [createdDoc, getField_cons, hbn]

/-- Witness for C2 (amended): update with stock "lots" is rejected and
leaves the store unchanged; create with stock "lots" succeeds with 0. -/
theorem stock_nonnumeric_spec_witness :
    isUndefined (getV [("stock", JVal.str "lots")] "stock") = false ∧
    isNumberV (getV [("stock", JVal.str "lots")] "stock") = false ∧
    ((updateProduct 5 sampleId [("stock", JVal.str "lots")] [sampleDoc]).1.status = 400 ∧
     (updateProduct 5 sampleId [("stock", JVal.str "lots")] [sampleDoc]).2 = [sampleDoc]) ∧
    (∃ d, createProduct sampleId2 5
        ⟨JVal.str "Pen", JVal.str "Stationery", JVal.num 3, JVal.str "lots"⟩ [sampleDoc] =
        (⟨201, JVal.obj d⟩, [sampleDoc] ++ [d]) ∧
      getField d "stock" = some (JVal.num 0)) := by
  have h := stock_nonnumeric_spec 5 sampleId [("stock", JVal.str "lots")] [sampleDoc]
    sampleId2 ⟨JVal.str "Pen", JVal.str "Stationery", JVal.num 3, JVal.str "lots"⟩
    (by decide) (by decide) (by decide)
  exact ⟨by decide, by decide, h.1, h.2 (by decide)⟩

/-- C3: a create request with truthy name and category and numeric price
returns 201 with the full created record — the assigned identifier, the
attributes, stock from the body when numeric and 0 otherwise, and the
creation timestamp — and appends exactly that record to the store; when
the condition fails, it returns the validation error and persists
nothing. -/
theorem create_validation_spec (newId : String) (now : Int) (b : CreateBody)
    (coll : List Doc) :
    ((truthy b.name && truthy b.category && isNumberV b.price) = true →
      createProduct newId now b coll =
        (⟨201, JVal.obj (("_id", JVal.oid newId) :: createdDoc now b)⟩,
         coll ++ [("_id", JVal.oid newId) :: createdDoc now b]) ∧
      getField (("_id", JVal.oid newId) :: createdDoc now b) "_id" =
        some (JVal.oid newId) ∧
      getField (("_id", JVal.oid newId) :: createdDoc now b) "name" = some b.name ∧
      getField (("_id", JVal.oid newId) :: createdDoc now b) "category" =
        some b.category ∧
      getField (("_id", JVal.oid newId) :: createdDoc now b) "price" = some b.price ∧
      getField (("_id", JVal.oid newId) :: createdDoc now b) "stock" =
        some (if isNumberV b.stock then b.stock else JVal.num 0) ∧
      getField (("_id", JVal.oid newId) :: createdDoc now b) "createdAt" =
        some (JVal.date now)) ∧
    ((truthy b.name && truthy b.category && isNumberV b.price) = false →
      createProduct newId now b coll = (⟨400, createValidationErr⟩, coll)) := by
  constructor
  · intro habc
    rcases Bool.and_eq_true_iff.mp habc with ⟨hab, hc⟩
    rcases Bool.and_eq_true_iff.mp hab with ⟨ha, hb⟩
    refine ⟨by simp [createProduct, ha, hb, hc], ?_, ?_, ?_, ?_, ?_, ?_⟩ <;>
      simp [createdDoc, getField_cons]
  · intro habc
    cases ha : truthy b.name <;> cases hb : truthy b.category <;>
      cases hc : isNumberV b.price <;> rw [ha, hb, hc] at habc <;>
      first
      | exact absurd habc (by decide)
      | simp [createProduct, ha, hb, hc]

/-- Witness for C3: a valid body creates the record; an empty-name body
fails validation. -/
theorem create_validation_spec_witness :
    (createProduct sampleId2 7
        ⟨JVal.str "Pen", JVal.str "Stationery", JVal.num 3, JVal.undefined⟩ [] =
      (⟨201, JVal.obj (("_id", JVal.oid sampleId2) ::
        createdDoc 7 ⟨JVal.str "Pen", JVal.str "Stationery", JVal.num 3, JVal.undefined⟩)⟩,
       [] ++ [("_id", JVal.oid sampleId2) ::
        createdDoc 7 ⟨JVal.str "Pen", JVal.str "Stationery", JVal.num 3, JVal.undefined⟩])) ∧
    createProduct sampleId2 7
        ⟨JVal.undefined, JVal.str "Stationery", JVal.num 3, JVal.undefined⟩ [] =
      (⟨400, createValidationErr⟩, []) :=
  ⟨((create_validation_spec sampleId2 7
      ⟨JVal.str "Pen", JVal.str "Stationery", JVal.num 3, JVal.undefined⟩ []).1
      (by decide)).1,
   (create_validation_spec sampleId2 7
      ⟨JVal.undefined, JVal.str "Stationery", JVal.num 3, JVal.undefined⟩ []).2 (by decide)⟩

/-- C4: a list request carrying minPrice answers 400 with the minPrice
error — independently of the stored collection, so before any store
query — when the parameter does not convert to a number; when it does,
every returned element is the projection of a stored document whose price
is at least the bound (inclusive). -/
theorem list_minPrice_spec (parse : String → Option Int) (q : ListQuery)
    (mp : String) (coll : List Doc) (hmp : q.minPrice = some mp) :
    (parse mp = none →
      listProducts parse q coll = ⟨400, errObj "minPrice must be a number"⟩) ∧
    (∀ m : Int, parse mp = some m →
      ∃ out, listProducts parse q coll = ⟨200, JVal.arr out⟩ ∧
        ∀ v ∈ out, ∃ d, d ∈ coll ∧
          (∃ p : Int, getField d "price" = some (JVal.num p) ∧ m ≤ p) ∧
          v = JVal.obj (projectOut q d)) := by
  constructor
  · intro hparse
    simp [listProducts, hmp, hparse]
  · intro m hparse
    refine ⟨(listDocs q (some m) coll).map (fun d => JVal.obj (projectOut q d)), ?_, ?_⟩
    · simp [listProducts, hmp, hparse, listOk]
    · intro v hv
      rcases List.mem_map.mp hv with ⟨d, hd, hvd⟩
      rcases (mem_listDocs q (some m) coll d).mp hd with ⟨hdc, hmatch⟩
      exact ⟨d, hdc, price_ge_of_matches (catFilter q) m d hmatch, hvd.symm⟩

/-- Witness for C4: minPrice "abc" (NaN) is rejected; minPrice "10"
filters to prices at least 10. -/
theorem list_minPrice_spec_witness :
    listProducts (fun _ => none) ⟨none, some "abc", none, none⟩ [sampleDoc] =
      ⟨400, errObj "minPrice must be a number"⟩ ∧
    (∃ out, listProducts (fun _ => some 10) ⟨none, some "10", none, none⟩ [sampleDoc] =
        ⟨200, JVal.arr out⟩ ∧
      ∀ v ∈ out, ∃ d, d ∈ [sampleDoc] ∧
        (∃ p : Int, getField d "price" = some (JVal.num p) ∧ 10 ≤ p) ∧
        v = JVal.obj (projectOut ⟨none, some "10", none, none⟩ d)) :=
  ⟨(list_minPrice_spec (fun _ => none) ⟨none, some "abc", none, none⟩ "abc"
      [sampleDoc] rfl).1 rfl,
   (list_minPrice_spec (fun _ => some 10) ⟨none, some "10", none, none⟩ "10"
      [sampleDoc] rfl).2 10 rfl⟩

/-- C5: when the fields parameter names at least one attribute and every
stored document carries all the requested attributes, each object in a
successful list response has exactly the requested attribute names as its
keys — in particular the identifier is absent whenever it was not
requested. -/
theorem list_fields_exact (parse : String → Option Int) (q : ListQuery)
    (fs : String) (coll : List Doc) (out : List JVal)
    (hf : q.fields = some fs) (hne : ¬ selectedFields fs = [])
    (hcov : ∀ d ∈ coll, ∀ k ∈ selectedFields fs, k ∈ d.map Prod.fst)
    (hrun : listProducts parse q coll = ⟨200, JVal.arr out⟩) :
    ∀ v ∈ out, ∃ d, d ∈ coll ∧
      v = JVal.obj (applyProjection (selectedFields fs) d) ∧
      (∀ k, k ∈ (applyProjection (selectedFields fs) d).map Prod.fst ↔
        k ∈ selectedFields fs) ∧
      ("_id" ∉ selectedFields fs →
        "_id" ∉ (applyProjection (selectedFields fs) d).map Prod.fst) := by
  have hfs : ¬ fs = "" := by
    intro e
    exact hne (by rw [e]; decide)
  have hproj : ∀ d, projectOut q d = applyProjection (selectedFields fs) d := by
    intro d
    have hb : (fs == "") = false := beq_eq_false_iff_ne.mpr hfs
    simp [projectOut, fieldsSel, hf, hb]
  rcases listProducts_eq_200 parse q coll out hrun with ⟨fmin, hout⟩
  subst hout
  intro v hv
  rcases List.mem_map.mp hv with ⟨d, hd, hvd⟩
  rcases (mem_listDocs q fmin coll d).mp hd with ⟨hdc, _⟩
  refine ⟨d, hdc, by rw [← hvd, hproj d], ?_, ?_⟩
  · intro k
    rw [keys_applyProjection_incl (selectedFields fs) d k hne]
    exact ⟨fun h => h.2, fun h => ⟨hcov d hdc k h, h⟩⟩
  · intro hid hmem
    rw [keys_applyProjection_incl (selectedFields fs) d "_id" hne] at hmem
    exact hid hmem.2

/-- Witness for C5 with fields "name,price" over one stored document. -/
theorem list_fields_exact_witness :
    (¬ selectedFields "name,price" = []) ∧
    (∀ v ∈ [JVal.obj [("name", JVal.str "Pen"), ("price", JVal.num 2)]],
      ∃ d, d ∈ [sampleDoc] ∧
        v = JVal.obj (applyProjection (selectedFields "name,price") d) ∧
        (∀ k, k ∈ (applyProjection (selectedFields "name,price") d).map Prod.fst ↔
          k ∈ selectedFields "name,price") ∧
        ("_id" ∉ selectedFields "name,price" →
          "_id" ∉ (applyProjection (selectedFields "name,price") d).map Prod.fst)) :=
  ⟨by decide,
   list_fields_exact (fun _ => none) ⟨none, none, none, some "name,price"⟩
     "name,price" [sampleDoc] [JVal.obj [("name", JVal.str "Pen"), ("price", JVal.num 2)]]
     rfl (by decide) (by decide) rfl⟩

/-- Counterexample to C10 as stated: the empty string is a present fields
parameter with no non-empty names, yet — being falsy — it skips the
projection entirely, so the returned object still contains the
identifier field. -/
theorem fields_empty_string_includes_id :
    (⟨none, none, none, some ""⟩ : ListQuery).fields = some "" ∧
    selectedFields "" = [] ∧
    listProducts (fun _ => none) ⟨none, none, none, some ""⟩ [sampleDoc] =
      ⟨200, JVal.arr [JVal.obj sampleDoc]⟩ ∧
    "_id" ∈ sampleDoc.map Prod.fst :=
  ⟨rfl, by decide, rfl, by decide⟩

/-- C10 (amended): when the fields parameter is a nonempty (truthy) string
that contains no non-empty names after splitting on commas and trimming,
the projection sent to the store is exactly the identifier exclusion, so
each object in a successful list response carries every attribute of the
stored document except the identifier. -/
theorem list_fields_blank_excludes_id (parse : String → Option Int)
    (q : ListQuery) (fs : String) (coll : List Doc) (out : List JVal)
    (hf : q.fields = some fs) (hfs : ¬ fs = "")
    (hsel : selectedFields fs = [])
    (hrun : listProducts parse q coll = ⟨200, JVal.arr out⟩) :
    ∀ v ∈ out, ∃ d, d ∈ coll ∧
      v = JVal.obj (applyProjection [] d) ∧
      (∀ k, k ∈ (applyProjection [] d).map Prod.fst ↔
        (k ∈ d.map Prod.fst ∧ ¬ k = "_id")) := by
  have hproj : ∀ d, projectOut q d = applyProjection [] d := by
    intro d
    have hb : (fs == "") = false := beq_eq_false_iff_ne.mpr hfs
    simp [projectOut, fieldsSel, hf, hb, hsel]
  rcases listProducts_eq_200 parse q coll out hrun with ⟨fmin, hout⟩
  subst hout
  intro v hv
  rcases List.mem_map.mp hv with ⟨d, hd, hvd⟩
  rcases (mem_listDocs q fmin coll d).mp hd with ⟨hdc, _⟩
  exact ⟨d, hdc, by rw [← hvd, hproj d], fun k => keys_applyProjection_excl d k⟩

/-- Witness for C10 (amended) with fields ",," over one stored document. -/
theorem list_fields_blank_excludes_id_witness :
    (¬ (",," : String) = "") ∧ selectedFields ",," = [] ∧
    (∀ v ∈ [JVal.obj (applyProjection [] sampleDoc)],
      ∃ d, d ∈ [sampleDoc] ∧
        v = JVal.obj (applyProjection [] d) ∧
        (∀ k, k ∈ (applyProjection [] d).map Prod.fst ↔
          (k ∈ d.map Prod.fst ∧ ¬ k = "_id"))) :=
  ⟨by decide, by decide,
   list_fields_blank_excludes_id (fun _ => none) ⟨none, none, none, some ",,"⟩
     ",," [sampleDoc] [JVal.obj (applyProjection [] sampleDoc)]
     rfl (by decide) (by decide) rfl⟩

/-- C6: a successful update rewrites the first matching document with
exactly the allow-listed fields supplied in the body plus the
server-assigned updatedAt, and returns that post-update document; every
other field — in particular the identifier and createdAt — and every
other document are unchanged, and body fields outside the allow-list are
ignored (filtering the body to the allow-list yields the same update). -/
theorem update_frame_spec (now : Int) (id : String) (body : Doc)
    (pre post : List Doc) (d : Doc)
    (hid : isValidObjectId id = true)
    (hpre : ∀ e ∈ pre, matchesId id e = false)
    (hd : matchesId id d = true)
    (hne : ¬ buildUpdates body = [])
    (hprice : badNum (getField (buildUpdates body) "price") = false)
    (hstock : badNum (getField (buildUpdates body) "stock") = false) :
    updateProduct now id body (pre ++ d :: post) =
      (⟨200, JVal.obj (applyUpdate (buildUpdates body) now d)⟩,
       pre ++ applyUpdate (buildUpdates body) now d :: post) ∧
    (∀ k, k ∉ allowedKeys → ¬ k = "updatedAt" →
      getField (applyUpdate (buildUpdates body) now d) k = getField d k) ∧
    getField (applyUpdate (buildUpdates body) now d) "_id" = getField d "_id" ∧
    getField (applyUpdate (buildUpdates body) now d) "createdAt" =
      getField d "createdAt" ∧
    (∀ k, k ∈ allowedKeys → isUndefined (getV body k) = true →
      getField (applyUpdate (buildUpdates body) now d) k = getField d k) ∧
    (∀ k, k ∈ allowedKeys → isUndefined (getV body k) = false →
      getField (applyUpdate (buildUpdates body) now d) k = some (getV body k)) ∧
    getField (applyUpdate (buildUpdates body) now d) "updatedAt" =
      some (JVal.date now) ∧
    buildUpdates body = buildUpdates (body.filter (fun kv => allowedKeys.contains kv.1)) := by
  have hallow : ∀ k, k ∈ allowedKeys → ¬ k = "updatedAt" := by decide
  have hnotk : ∀ k, k ∉ allowedKeys → getField (buildUpdates body) k = none :=
    fun k hk => getField_buildUpdates_not_allowed body k hk
  refine ⟨?_, ?_, ?_, ?_, ?_, ?_, ?_, buildUpdates_filter_allowed body⟩
  · unfold updateProduct
    rw [if_pos hid]
    have hnil : ¬ (buildUpdates body).isEmpty = true :=
      fun he => hne (List.isEmpty_iff.mp he)
    rw [if_neg hnil, if_neg (by simp [hprice]), if_neg (by simp [hstock])]
    rw [findOneAndUpdate_split (matchesId id) (applyUpdate (buildUpdates body) now)
      pre post d hpre hd]
  · intro k hk hku
    exact getField_applyUpdate_of_none (buildUpdates body) now d k hku (hnotk k hk)
  · exact getField_applyUpdate_of_none (buildUpdates body) now d "_id" (by decide)
      (hnotk "_id" (by decide))
  · exact getField_applyUpdate_of_none (buildUpdates body) now d "createdAt" (by decide)
      (hnotk "createdAt" (by decide))
  · intro k hk hku
    have hnone : getField (buildUpdates body) k = none := by
      rw [getField_buildUpdates body k hk, if_pos hku]
    exact getField_applyUpdate_of_none (buildUpdates body) now d k (hallow k hk) hnone
  · intro k hk hku
    have hsome : getField (buildUpdates body) k = some (getV body k) := by
      rw [getField_buildUpdates body k hk, if_neg (by simp [hku])]
    exact getField_applyUpdate_of_some (buildUpdates body) now d k (getV body k)
      (keys_buildUpdates_nodup body) (hallow k hk) hsome
  · exact getField_applyUpdate_updatedAt (buildUpdates body) now d

/-- Witness for C6: updating the sample document with a numeric price. -/
theorem update_frame_spec_witness :
    matchesId sampleId sampleDoc = true ∧
    updateProduct 5 sampleId [("price", JVal.num 9)] [sampleDoc] =
      (⟨200, JVal.obj (applyUpdate (buildUpdates [("price", JVal.num 9)]) 5 sampleDoc)⟩,
       [applyUpdate (buildUpdates [("price", JVal.num 9)]) 5 sampleDoc]) ∧
    getField (applyUpdate (buildUpdates [("price", JVal.num 9)]) 5 sampleDoc)
      "createdAt" = getField sampleDoc "createdAt" ∧
    getField (applyUpdate (buildUpdates [("price", JVal.num 9)]) 5 sampleDoc)
      "updatedAt" = some (JVal.date 5) := by
  have h := update_frame_spec 5 sampleId [("price", JVal.num 9)] [] [] sampleDoc
    (by decide) (by decide) (by decide) (fun e => nomatch e) (by decide) (by decide)
  exact ⟨by decide, h.1, h.2.2.2.1, h.2.2.2.2.2.2.1⟩
